import Mathlib

/-!
Verification development for the proxy pool manager (proxies.py).

The Python module is shallowly embedded: its pure string processing is
translated into executable Lean functions, and the database-backed state
(the MySQL table of proxy rows) is modelled as a list of records, with the
SQL statements translated into explicit list operations.  MySQL semantics
that the code relies on (NULL ordering in ORDER BY, the unique key on
(ip, port), and FOR UPDATE SKIP LOCKED row locking) are embedded as part of
the operations, as documented at each definition.
-/

namespace ProxyHelper

/-! ## Python string primitives used by the module -/

/-- ASCII whitespace recognised by the Python str.strip used in the code. -/
def pyIsSpace (c : Char) : Bool :=
  c = ' ' || c = '\t' || c = '\n' || c = '\r' || c = '\x0b' || c = '\x0c'

/-- Embedding of the Python expression s.strip(). -/
def pyStrip (s : String) : String :=
  String.mk (((s.data.dropWhile pyIsSpace).reverse.dropWhile pyIsSpace).reverse)

/-- Embedding of the Python slice s[:n]. -/
def pySlice (n : Nat) (s : String) : String :=
  String.mk (s.data.take n)

/-- Python s.startswith(p), stated on the character lists so that it is
structurally recursive and evaluates inside the kernel. -/
def strStartsWith (s p : String) : Bool :=
  p.data.isPrefixOf s.data

/-- Drop the first n characters, the Python slice s[n:]. -/
def strDrop (n : Nat) (s : String) : String :=
  String.mk (s.data.drop n)

/-- Uppercase one ASCII character, as Python str.upper does on the ASCII
strings this module handles. -/
def pyUpperChar (c : Char) : Char :=
  if 'a' ≤ c && c ≤ 'z' then Char.ofNat (c.toNat - 32) else c

/-- Python s.upper() on ASCII strings. -/
def strToUpper (s : String) : String :=
  String.mk (s.data.map pyUpperChar)

/-- Left-to-right non-overlapping replacement on character lists, with the
remaining length as fuel so the recursion is structural; the pattern is
nonempty at every call site. -/
def replaceGo (pat repl : List Char) : Nat → List Char → List Char
  | _, [] => []
  | 0, s => s
  | fuel + 1, c :: rest =>
    if pat.isPrefixOf (c :: rest) then
      repl ++ replaceGo pat repl fuel ((c :: rest).drop pat.length)
    else
      c :: replaceGo pat repl fuel rest

/-- Python s.replace(pat, repl); an empty pattern does not occur in the
module, and is returned unchanged here as a guard. -/
def strReplace (s pat repl : String) : String :=
  if pat.data.isEmpty then s
  else String.mk (replaceGo pat.data repl.data s.data.length s.data)

/-! ## Ingestion Normalizer (_normalize_proxy_row and IP_PORT_RE)

IP_PORT_RE is the anchored regular expression
  (scheme://)? host : port
with scheme one of http, https, socks5, socks4; host a nonempty lazy run
over the character class letters, digits, dot, dash, colon; and port 2 to 5
digits extending to the end of the line.  Because the host run is lazy and
the port is end-anchored, the regex splits at the first colon whose entire
suffix is a 2-5 digit run, scanning only over host-class characters; the
embedding below reproduces exactly that backtracking behaviour. -/

/-- The regex character class for the host part of IP_PORT_RE. -/
def isIpChar (c : Char) : Bool :=
  (('A' ≤ c && c ≤ 'Z') || ('a' ≤ c && c ≤ 'z') || ('0' ≤ c && c ≤ '9')
    || c = '.' || c = '-' || c = ':')

/-- One decimal digit, the regex class for the port. -/
def isDigitCh (c : Char) : Bool := '0' ≤ c && c ≤ '9'

/-- Numeric value of a digit run, the Python int() applied to the port group. -/
def digitsVal (cs : List Char) : Nat :=
  cs.foldl (fun a c => a * 10 + (c.toNat - '0'.toNat)) 0

/-- Split host:port per IP_PORT_RE after the optional scheme was removed:
scan left to right; at a colon whose suffix is entirely 2-5 digits, and with
a nonempty host accumulated, the lazy host group stops there; otherwise the
colon (a member of the host class) is consumed by the host, and any
character outside the host class fails the whole match. -/
def splitHostPort : List Char → List Char → Option (List Char × List Char)
  | [], _ => none
  | c :: rest, acc =>
    if c = ':' && !acc.isEmpty && !rest.isEmpty && rest.all isDigitCh
        && 2 ≤ rest.length && rest.length ≤ 5 then
      some (acc.reverse, rest)
    else if isIpChar c then
      splitHostPort rest (c :: acc)
    else
      none

/-- The optional scheme group of IP_PORT_RE.  When the line does not start
with one of the four literal scheme prefixes the group is skipped; the
host class contains no slash, so a line with any other scheme prefix can
never match, exactly as for the regex. -/
def stripScheme (s : String) : Option String × String :=
  if strStartsWith s "https://" then (some "https", strDrop 8 s)
  else if strStartsWith s "http://" then (some "http", strDrop 7 s)
  else if strStartsWith s "socks5://" then (some "socks5", strDrop 9 s)
  else if strStartsWith s "socks4://" then (some "socks4", strDrop 9 s)
  else (none, s)

/-- IP_PORT_RE.match: returns the scheme group, host group and port value. -/
def matchIpPort (s : String) : Option (Option String × String × Nat) :=
  let sr := stripScheme s
  match splitHostPort sr.2.data [] with
  | none => none
  | some (ipCs, portCs) => some (sr.1, String.mk ipCs, digitsVal portCs)

/-- A normalized proxy candidate, the dict built by _normalize_proxy_row. -/
structure NormItem where
  ip : String
  port : Nat
  proxy_url : String
  proxy_type : String
  source : String
deriving DecidableEq

/-- Strip, drop blank and comment lines, and run IP_PORT_RE: the part of
_normalize_proxy_row before scheme resolution. -/
def parseCandidate (raw : String) : Option (Option String × String × Nat) :=
  let r := pyStrip raw
  if r.data.isEmpty || strStartsWith r "#" then none
  else matchIpPort r

/-- _normalize_proxy_row: parse one raw line into a candidate record.  The
matched scheme group is already lowercase (the regex only matches lowercase
scheme literals), so the .lower() in the source is the identity here. -/
def normalizeProxyRow (raw : String) (default_type : String) (source : String) :
    Option NormItem :=
  match parseCandidate raw with
  | none => none
  | some (mOpt, ip, port) =>
    let scheme := mOpt.getD ""
    let pt_sch : String × String :=
      if scheme = "http" || scheme = "https" then ("HTTP", "http")
      else if scheme = "socks5" || scheme = "socks4" then
        ((if scheme = "socks5" then "SOCKS5" else "SOCKS4"), scheme)
      else
        (strToUpper default_type, if strToUpper default_type = "SOCKS5" then "socks5" else "http")
    some { ip := ip, port := port,
           proxy_url := pt_sch.2 ++ "://" ++ ip ++ ":" ++ toString port,
           proxy_type := pt_sch.1, source := source }

/-- Modelled from the spec (section 4.1 scheme resolution table), to be
compared with the code: http and https give the HTTP type with stored
scheme http; socks5 and socks4 give the matching SOCKS type; a missing
scheme gives the caller-supplied default type with a synthesized scheme,
socks5 for the SOCKS5 default and http otherwise. -/
def specSchemeTable (m : Option String) (default_type : String) : String × String :=
  match m with
  | some "http" => ("HTTP", "http")
  | some "https" => ("HTTP", "http")
  | some "socks5" => ("SOCKS5", "socks5")
  | some "socks4" => ("SOCKS4", "socks4")
  | _ => (strToUpper default_type,
          if strToUpper default_type = "SOCKS5" then "socks5" else "http")

/-- Normalization as the spec words it: the shared grammar, then the spec
resolution table, one record per accepted line and none otherwise. -/
def specNormalize (raw : String) (default_type : String) (source : String) :
    Option NormItem :=
  match parseCandidate raw with
  | none => none
  | some (mOpt, ip, port) =>
    let pt_sch := specSchemeTable mOpt default_type
    some { ip := ip, port := port,
           proxy_url := pt_sch.2 ++ "://" ++ ip ++ ":" ++ toString port,
           proxy_type := pt_sch.1, source := source }

/-- refresh_proxies collects the normalized rows of all lines, dropping
lines for which _normalize_proxy_row returned None. -/
def normalizeLines (lines : List String) (default_type : String) (source : String) :
    List NormItem :=
  lines.filterMap (fun l => normalizeProxyRow l default_type source)

/-! ## Proxy Record Model

One row of the proxies table.  Timestamps are minutes on an abstract clock
(UTC_TIMESTAMP is passed in as the parameter now); NULL columns are Option.
The latency column is DECIMAL with NULL allowed after updates, modelled as
Option Nat, and MySQL sorts NULL before every value under ORDER BY ASC. -/
structure ProxyRecord where
  id : Nat
  ip : String
  port : Nat
  proxy_url : String
  proxy_type : String
  source : String
  working : Bool
  tested_timestamp : Option Nat
  last_used_timestamp : Option Nat
  latency : Option Nat
  tested_ip : Option String
  error_message : Option String
  created_at : Nat
  updated_at : Nat
deriving DecidableEq

/-! ## Acquisition/Rotation Protocol (_acquire_next_proxy) -/

/-- The WHERE clause of _acquire_next_proxy when require_working is true:
working=1 AND tested_timestamp within the last maxAge minutes.  A NULL
tested_timestamp never satisfies the SQL comparison. -/
def eligible (now maxAge : Nat) (r : ProxyRecord) : Bool :=
  r.working &&
    match r.tested_timestamp with
    | none => false
    | some ts => decide (now ≤ ts + maxAge)

/-- The full selection condition: 1=1, plus the working clauses when
require_working is requested. -/
def acquireCond (requireWorking : Bool) (now maxAge : Nat) (r : ProxyRecord) : Bool :=
  if requireWorking then eligible now maxAge r else true

/-- The ORDER BY key of _acquire_next_proxy, in MySQL semantics:
(last_used_timestamp IS NULL) DESC puts never-used rows first (component 0
versus 1); then last_used_timestamp ASC (all never-used rows tie); then
latency ASC with NULL before every value (encoded 0 versus v + 1). -/
def key (r : ProxyRecord) : Nat × Nat × Nat :=
  ( (match r.last_used_timestamp with | none => 0 | some _ => 1)
  , (match r.last_used_timestamp with | none => 0 | some t => t)
  , (match r.latency with | none => 0 | some v => v + 1) )

/-- Lexicographic comparison of ORDER BY keys. -/
def lexLe3 (x y : Nat × Nat × Nat) : Bool :=
  decide (x.1 < y.1) ||
    (decide (x.1 = y.1) &&
      (decide (x.2.1 < y.2.1) ||
        (decide (x.2.1 = y.2.1) && decide (x.2.2 ≤ y.2.2))))

/-- r sorts no later than q under the ORDER BY of _acquire_next_proxy. -/
def keyLe (r q : ProxyRecord) : Bool := lexLe3 (key r) (key q)

/-- SELECT ... WHERE pred ORDER BY key LIMIT 1: the first row in key order
among the rows satisfying pred (earlier table rows win exact key ties). -/
def selectBy (pred : ProxyRecord → Bool) : List ProxyRecord → Option ProxyRecord
  | [] => none
  | r :: rest =>
    match selectBy pred rest with
    | none => if pred r then some r else none
    | some b => if pred r then (if keyLe r b then some r else some b) else some b

/-- UPDATE proxies SET last_used_timestamp = UTC_TIMESTAMP() WHERE id = rid. -/
def markUsed (now rid : Nat) (pool : List ProxyRecord) : List ProxyRecord :=
  pool.map (fun q =>
    if q.id = rid then { q with last_used_timestamp := some now } else q)

/-- _acquire_next_proxy as one atomic transaction: select the least row
under the eligibility condition and the ORDER BY key, stamp its
last_used_timestamp, and return the selected row (the pre-update row, as
the code returns the fetched dict).  Returns the row handed to the caller
and the pool after commit. -/
def acquireNextProxy (requireWorking : Bool) (now maxAge : Nat)
    (pool : List ProxyRecord) : Option ProxyRecord × List ProxyRecord :=
  match selectBy (acquireCond requireWorking now maxAge) pool with
  | none => (none, pool)
  | some r => (some r, markUsed now r.id pool)

/-- rotate_proxy drops the latch and re-acquires with require_working and a
24 hour staleness window (max_age_minutes = 1440). -/
def rotateProxy (now : Nat) (pool : List ProxyRecord) :
    Option ProxyRecord × List ProxyRecord :=
  acquireNextProxy true now 1440 pool

/-! ## Concurrent claims (FOR UPDATE SKIP LOCKED)

While one transaction holds the row lock taken by SELECT ... FOR UPDATE,
a concurrent claimant running the same statement with SKIP LOCKED does not
see that row.  N concurrent in-flight claims are modelled as N selects,
each executed while every earlier claimant still holds its lock: the
locked set accumulates the claimed row ids and the selection predicate
skips them. -/
def selectSkipLocked (now maxAge : Nat) (locked : List Nat)
    (pool : List ProxyRecord) : Option ProxyRecord :=
  selectBy (fun r => eligible now maxAge r && !(decide (r.id ∈ locked))) pool

/-- N overlapping claim calls: each selects the least eligible unlocked row
and locks it; none fails as long as rows remain.  Returns the rows handed
out, or none if some claimant found no row. -/
def claimConcurrent (now maxAge : Nat) :
    Nat → List Nat → List ProxyRecord → Option (List ProxyRecord)
  | 0, _, _ => some []
  | n + 1, locked, pool =>
    match selectSkipLocked now maxAge locked pool with
    | none => none
    | some r => (claimConcurrent now maxAge n (r.id :: locked) pool).map (r :: ·)

/-! ## Bulk upsert (_bulk_upsert) -/

/-- The in-memory dedup loop of _bulk_upsert: walk the batch keeping a seen
set of (ip, port) pairs; an item whose pair was seen before is dropped, so
the first occurrence of each pair is kept. -/
def dedupGo : List NormItem → List (String × Nat) → List NormItem
  | [], _ => []
  | it :: rest, seen =>
    if decide ((it.ip, it.port) ∈ seen) then dedupGo rest seen
    else it :: dedupGo rest ((it.ip, it.port) :: seen)

/-- Deduplicate a batch by (ip, port), first occurrence kept. -/
def dedupFirst (items : List NormItem) : List NormItem :=
  dedupGo items []

/-- Does the pool contain a row with this unique key? -/
def keyPresent (pool : List ProxyRecord) (ip : String) (port : Nat) : Bool :=
  pool.any (fun r => r.ip == ip && r.port == port)

/-- The row with this unique key, if any. -/
def findByKey (pool : List ProxyRecord) (ip : String) (port : Nat) :
    Option ProxyRecord :=
  pool.find? (fun r => r.ip == ip && r.port == port)

/-- AUTO_INCREMENT id for a fresh row. -/
def nextId (pool : List ProxyRecord) : Nat :=
  pool.foldl (fun m r => max m r.id) 0 + 1

/-- The row inserted by _bulk_upsert for a new (ip, port) pair:
VALUES (ip, port, proxy_url, proxy_type, source, 0, NULL), every other
column at its schema default (latency DECIMAL 0, the rest NULL). -/
def freshRecord (now : Nat) (pool : List ProxyRecord) (it : NormItem) : ProxyRecord :=
  { id := nextId pool, ip := it.ip, port := it.port, proxy_url := it.proxy_url,
    proxy_type := it.proxy_type, source := it.source, working := false,
    tested_timestamp := none, last_used_timestamp := none, latency := some 0,
    tested_ip := none, error_message := none, created_at := now, updated_at := now }

/-- One INSERT ... ON DUPLICATE KEY UPDATE row: when the (ip, port) key is
already present, only proxy_url, proxy_type, source and updated_at change;
otherwise the fresh row is inserted. -/
def upsertOne (now : Nat) (pool : List ProxyRecord) (it : NormItem) :
    List ProxyRecord :=
  if keyPresent pool it.ip it.port then
    pool.map (fun r =>
      if r.ip == it.ip && r.port == it.port then
        { r with proxy_url := it.proxy_url, proxy_type := it.proxy_type,
                 source := it.source, updated_at := now }
      else r)
  else
    pool ++ [freshRecord now pool it]

/-- _bulk_upsert: dedup the batch in memory, then executemany the upsert
statement row by row inside one committed transaction. -/
def bulkUpsert (now : Nat) (pool : List ProxyRecord) (items : List NormItem) :
    List ProxyRecord :=
  (dedupFirst items).foldl (upsertOne now) pool

/-! ## Validation Engine (validate_proxies and _test_proxies_with_condition) -/

/-- What one probe produced: an HTTP response with status and body, or a
raised exception with its message. -/
inductive ProbeResult where
  | response (status : Nat) (body : String)
  | exn (msg : String)
deriving DecidableEq

/-- The per-row update tuple (working, latency, tested_ip, error_message)
written back by the validation engine. -/
structure ProbeUpdate where
  ok : Bool
  latency : Option Nat
  tested_ip : Option String
  err : Option String
deriving DecidableEq

/-- The _one closure of validate_proxies.  latency is measured before the
status check, so a response with a bad status still records the elapsed
time; a 200 body is stripped and truncated to 45 characters and success is
its Python truthiness; an exception clears latency and bounds the message
to 500 characters. -/
def validateOne (elapsed : Nat) : ProbeResult → ProbeUpdate
  | .response st body =>
    if st = 200 then
      let t := pySlice 45 (pyStrip body)
      { ok := !(t == ""), latency := some elapsed, tested_ip := some t, err := none }
    else
      { ok := false, latency := some elapsed, tested_ip := none,
        err := some ("HTTP " ++ toString st) }
  | .exn msg =>
    { ok := false, latency := none, tested_ip := none, err := some (pySlice 500 msg) }

/-- The UPDATE applying one probe outcome to its row: working,
tested_timestamp, latency, tested_ip, error_message and updated_at are
written together. -/
def applyUpdate (now : Nat) (upd : ProbeUpdate) (r : ProxyRecord) : ProxyRecord :=
  { r with working := upd.ok, tested_timestamp := some now,
           latency := upd.latency, tested_ip := upd.tested_ip,
           error_message := upd.err, updated_at := now }

/-- The acceptance check inside test_proxy: status 200, and the decoded
stripped body nonempty and shorter than 50 characters. -/
def testProxyAccept (status : Nat) (body : String) : Bool :=
  status = 200 && (!(pyStrip body == "") && decide ((pyStrip body).length < 50))

/-- The protocol fallback loop of test_proxy: attempts in order, one per
protocol tried; none stands for a raised connection or timeout error, and
the loop succeeds as soon as one response passes the acceptance check. -/
def testProxySucceeds (attempts : List (Option (Nat × String))) : Bool :=
  attempts.any (fun a =>
    match a with
    | some (st, b) => testProxyAccept st b
    | none => false)

/-- result.split with the literal sep, last piece, guarded by membership:
the tested ip extracted from the success message of test_proxy. -/
def extractIp (result : String) : Option String :=
  if (result.splitOn "IP: ").length > 1 then
    some ((result.splitOn "IP: ").getLastD result)
  else none

/-- The _test_proxy closure of _test_proxies_with_condition (and of
test_all_proxies): the update row built from the test_proxy verdict; the
latency slot is the literal None in both branches. -/
def condTestOne (success : Bool) (resultMsg : String) : ProbeUpdate :=
  if success then
    { ok := true, latency := none, tested_ip := extractIp resultMsg, err := none }
  else
    { ok := false, latency := none, tested_ip := none, err := some resultMsg }

/-! ## Requests session wrapper (session, _bind, _requests_proxy_mapping) -/

/-- _requests_proxy_mapping: one url for both the http and https slots,
with socks schemes rewritten to their remote-DNS variants. -/
def requestsProxyMapping (proxy_url proxy_type : String) : String × String :=
  let u :=
    if strStartsWith (strToUpper proxy_type) "SOCKS" then
      strReplace (strReplace proxy_url "socks5://" "socks5h://") "socks4://" "socks4a://"
    else proxy_url
  (u, u)

/-- Entering session(): when the latch is empty, rotate_proxy is called
(require_working, 24 hour window); _bind then installs the proxy mapping on
the fresh requests.Session only when a proxy is latched, and yields the
session either way.  Returns the latch after entry and the proxy mapping
bound to the session (none = the session has no proxies set and requests
go direct). -/
def sessionEntry (current : Option ProxyRecord) (now : Nat)
    (pool : List ProxyRecord) : Option ProxyRecord × Option (String × String) :=
  let cur :=
    match current with
    | some r => some r
    | none => (rotateProxy now pool).1
  (cur, cur.map (fun r => requestsProxyMapping r.proxy_url r.proxy_type))

/-- How the session() generator reacts when the with-body raises and
contextlib throws the exception into it at its first yield: the except
handler re-raises when rotation is disabled or the budget is not positive,
and otherwise enters the retry loop, whose first iteration rotates, sleeps
and reaches the second yield statement. -/
inductive ThrowBehavior where
  | raisedSame
  | yielded
deriving DecidableEq

/-- The generator control flow of session() under a thrown exception,
from its except branch: retries has the Python int type. -/
def sessionOnThrow (auto_rotate_on_fail : Bool) (retries : Int) : ThrowBehavior :=
  if !auto_rotate_on_fail || retries ≤ 0 then .raisedSame else .yielded

/-- What the caller of the with-statement observes. -/
inductive SessionOutcome where
  | success
  | originalError
  | runtimeError
deriving DecidableEq

/-- CPython contextlib: _GeneratorContextManager exit on an exception
calls gen.throw; a generator that re-raises the thrown exception lets it
propagate, and a generator that yields again instead of stopping makes
contextlib raise RuntimeError (generator did not stop after throw). -/
def contextmanagerExit : ThrowBehavior → SessionOutcome
  | .raisedSame => .originalError
  | .yielded => .runtimeError

/-- One use of with session(...) whose body either succeeds or raises on
its first (and, given the protocol, only) run. -/
def sessionCall (auto_rotate_on_fail : Bool) (retries : Int)
    (firstBodyFails : Bool) : SessionOutcome :=
  if firstBodyFails then contextmanagerExit (sessionOnThrow auto_rotate_on_fail retries)
  else .success

/-! ## Store failure behaviour (StoreUnavailable paths) -/

/-- Outcome of one statement against the persistence layer. -/
inductive StoreResult (α : Type) where
  | ok (a : α)
  | unavailable
deriving DecidableEq

/-- The control flow of _acquire_next_proxy around its SELECT: a store
failure (or any exception) is caught, the transaction is rolled back, and
the call returns None; an empty SELECT also rolls back and returns None;
only a fetched row is returned. -/
def acquireOutcome (sel : StoreResult (Option ProxyRecord)) : Option ProxyRecord :=
  match sel with
  | .unavailable => none
  | .ok none => none
  | .ok (some r) => some r

/-- The control flow of _bulk_upsert around its executemany: a store
failure is rolled back (the pool keeps its pre-call state) and the
exception is re-raised to the caller; otherwise the upsert commits. -/
def bulkUpsertRun (now : Nat) (pool : List ProxyRecord) (items : List NormItem) :
    StoreResult Unit → Except String Unit × List ProxyRecord
  | .unavailable => (.error "store unavailable", pool)
  | .ok _ => (.ok (), bulkUpsert now pool items)

/-! ## Order lemmas for the ORDER BY key -/

theorem lexLe3_refl (x : Nat × Nat × Nat) : lexLe3 x x = true := by
  simp [lexLe3]

theorem lexLe3_total (x y : Nat × Nat × Nat) :
    lexLe3 x y = true ∨ lexLe3 y x = true := by
  simp only [lexLe3, Bool.or_eq_true, Bool.and_eq_true, decide_eq_true_eq]
  omega

theorem lexLe3_trans {x y z : Nat × Nat × Nat} (h1 : lexLe3 x y = true)
    (h2 : lexLe3 y z = true) : lexLe3 x z = true := by
  simp only [lexLe3, Bool.or_eq_true, Bool.and_eq_true, decide_eq_true_eq] at *
  omega

theorem keyLe_refl (r : ProxyRecord) : keyLe r r = true := lexLe3_refl _

theorem keyLe_total (r q : ProxyRecord) : keyLe r q = true ∨ keyLe q r = true :=
  lexLe3_total _ _

theorem keyLe_trans {r q s : ProxyRecord} (h1 : keyLe r q = true)
    (h2 : keyLe q s = true) : keyLe r s = true := lexLe3_trans h1 h2

/-! ## Selection lemmas -/

theorem selectBy_mem {pred : ProxyRecord → Bool} {l : List ProxyRecord}
    {r : ProxyRecord} (h : selectBy pred l = some r) : r ∈ l := by
  induction l with
  | nil => simp [selectBy] at h
  | cons a t ih =>
    simp only [selectBy] at h
    cases hs : selectBy pred t with
    | none =>
      rw [hs] at h; dsimp only at h
      by_cases hp : pred a = true
      · rw [if_pos hp] at h
        obtain rfl := Option.some_inj.mp h
        exact List.mem_cons_self _ _
      · rw [if_neg hp] at h; simp at h
    | some b =>
      rw [hs] at h; dsimp only at h
      by_cases hp : pred a = true
      · rw [if_pos hp] at h
        by_cases hk : keyLe a b = true
        · rw [if_pos hk] at h
          obtain rfl := Option.some_inj.mp h
          exact List.mem_cons_self _ _
        · rw [if_neg hk] at h
          obtain rfl := Option.some_inj.mp h
          exact List.mem_cons_of_mem _ (ih hs)
      · rw [if_neg hp] at h
        obtain rfl := Option.some_inj.mp h
        exact List.mem_cons_of_mem _ (ih hs)

theorem selectBy_predHolds {pred : ProxyRecord → Bool} {l : List ProxyRecord}
    {r : ProxyRecord} (h : selectBy pred l = some r) : pred r = true := by
  induction l with
  | nil => simp [selectBy] at h
  | cons a t ih =>
    simp only [selectBy] at h
    cases hs : selectBy pred t with
    | none =>
      rw [hs] at h; dsimp only at h
      by_cases hp : pred a = true
      · rw [if_pos hp] at h
        obtain rfl := Option.some_inj.mp h
        exact hp
      · rw [if_neg hp] at h; simp at h
    | some b =>
      rw [hs] at h; dsimp only at h
      by_cases hp : pred a = true
      · rw [if_pos hp] at h
        by_cases hk : keyLe a b = true
        · rw [if_pos hk] at h
          obtain rfl := Option.some_inj.mp h
          exact hp
        · rw [if_neg hk] at h
          obtain rfl := Option.some_inj.mp h
          exact ih hs
      · rw [if_neg hp] at h
        obtain rfl := Option.some_inj.mp h
        exact ih hs

theorem selectBy_none {pred : ProxyRecord → Bool} {l : List ProxyRecord}
    (h : selectBy pred l = none) : ∀ q ∈ l, pred q = false := by
  induction l with
  | nil => intro q hq; simp at hq
  | cons a t ih =>
    intro q hq
    simp only [selectBy] at h
    cases hs : selectBy pred t with
    | none =>
      rw [hs] at h; dsimp only at h
      by_cases hp : pred a = true
      · rw [if_pos hp] at h; simp at h
      · rcases List.mem_cons.mp hq with rfl | hm
        · exact Bool.eq_false_iff.mpr hp
        · exact ih hs q hm
    | some b =>
      rw [hs] at h; dsimp only at h
      by_cases hp : pred a = true
      · rw [if_pos hp] at h
        by_cases hk : keyLe a b = true
        · rw [if_pos hk] at h; simp at h
        · rw [if_neg hk] at h; simp at h
      · rw [if_neg hp] at h; simp at h

theorem selectBy_isSome {pred : ProxyRecord → Bool} {l : List ProxyRecord}
    {q : ProxyRecord} (hq : q ∈ l) (hp : pred q = true) :
    ∃ r, selectBy pred l = some r := by
  cases hsel : selectBy pred l with
  | none => exact absurd hp (by simp [selectBy_none hsel q hq])
  | some r => exact ⟨r, rfl⟩

theorem selectBy_min {pred : ProxyRecord → Bool} {l : List ProxyRecord}
    {r : ProxyRecord} (h : selectBy pred l = some r) :
    ∀ q ∈ l, pred q = true → keyLe r q = true := by
  induction l generalizing r with
  | nil => simp [selectBy] at h
  | cons a t ih =>
    intro q hq hpq
    simp only [selectBy] at h
    cases hs : selectBy pred t with
    | none =>
      rw [hs] at h; dsimp only at h
      by_cases hp : pred a = true
      · rw [if_pos hp] at h
        obtain rfl := Option.some_inj.mp h
        rcases List.mem_cons.mp hq with rfl | hm
        · exact keyLe_refl q
        · exact absurd hpq (by simp [selectBy_none hs q hm])
      · rw [if_neg hp] at h; simp at h
    | some b =>
      rw [hs] at h; dsimp only at h
      by_cases hp : pred a = true
      · rw [if_pos hp] at h
        by_cases hk : keyLe a b = true
        · rw [if_pos hk] at h
          obtain rfl := Option.some_inj.mp h
          rcases List.mem_cons.mp hq with rfl | hm
          · exact keyLe_refl q
          · exact keyLe_trans hk (ih hs q hm hpq)
        · rw [if_neg hk] at h
          obtain rfl := Option.some_inj.mp h
          rcases List.mem_cons.mp hq with hqa | hm
          · rw [hqa]
            rcases keyLe_total a b with hh | hh
            · exact absurd hh hk
            · exact hh
          · exact ih hs q hm hpq
      · rw [if_neg hp] at h
        obtain rfl := Option.some_inj.mp h
        rcases List.mem_cons.mp hq with rfl | hm
        · exact absurd hpq hp
        · exact ih hs q hm hpq

/-! ## Claim C1 -/

/-- Record A of the spec example: working, fresh, never used, latency 50. -/
def recA : ProxyRecord :=
  { id := 1, ip := "a", port := 80, proxy_url := "socks5://a:80",
    proxy_type := "SOCKS5", source := "g", working := true,
    tested_timestamp := some 10000, last_used_timestamp := none,
    latency := some 50, tested_ip := none, error_message := none,
    created_at := 0, updated_at := 0 }

/-- Record B of the spec example: working, fresh, never used, latency 10. -/
def recB : ProxyRecord :=
  { recA with id := 2, ip := "b", proxy_url := "socks5://b:80", latency := some 10 }

/-- Record C of the spec example: working, fresh, last used one hour
(60 minutes) before now = 10000, latency 5. -/
def recC : ProxyRecord :=
  { recA with
    id := 3
    ip := "c"
    proxy_url := "socks5://c:80"
    last_used_timestamp := some 9940
    latency := some 5 }

/-- The pool of the spec acquisition-ordering example. -/
def demoPool : List ProxyRecord := [recA, recB, recC]

/-- C1: a successful _acquire_next_proxy call with require_working returns
a row of the pool that is eligible (working and tested within the max-age
window, so a stale row is never returned) and minimal under the ORDER BY
key (never-used rows first, then earliest last_used_timestamp, then lowest
latency) among all eligible rows; and on the concrete pool of records A
(never used, latency 50), B (never used, latency 10), C (used one hour ago,
latency 5) three successive acquisitions return B, then A, then C. -/
theorem C1_acquisition_ordering (now maxAge : Nat) (pool : List ProxyRecord)
    (r : ProxyRecord) (h : (acquireNextProxy true now maxAge pool).1 = some r) :
    (r ∈ pool ∧ eligible now maxAge r = true ∧
      (∀ ts, r.tested_timestamp = some ts → now ≤ ts + maxAge) ∧
      (∀ q ∈ pool, eligible now maxAge q = true → keyLe r q = true)) ∧
    ((acquireNextProxy true 10000 1440 demoPool).1 = some recB ∧
      (acquireNextProxy true 10000 1440
        (acquireNextProxy true 10000 1440 demoPool).2).1 = some recA ∧
      (acquireNextProxy true 10000 1440
        (acquireNextProxy true 10000 1440
          (acquireNextProxy true 10000 1440 demoPool).2).2).1 = some recC) := by
  have hsel : selectBy (acquireCond true now maxAge) pool = some r := by
    unfold acquireNextProxy at h
    cases hs : selectBy (acquireCond true now maxAge) pool with
    | none => rw [hs] at h; simp at h
    | some b => rw [hs] at h; simpa using h
  have hcond : acquireCond true now maxAge r = eligible now maxAge r := by
    simp [acquireCond]
  have helig : eligible now maxAge r = true := by
    rw [← hcond]; exact selectBy_predHolds hsel
  refine ⟨⟨selectBy_mem hsel, helig, ?_, ?_⟩, by decide, by decide, by decide⟩
  · intro ts hts
    unfold eligible at helig
    rw [hts] at helig
    simp only [Bool.and_eq_true, decide_eq_true_eq] at helig
    exact helig.2
  · intro q hq hquel
    exact selectBy_min hsel q hq (by simpa [acquireCond] using hquel)

/-- Witness for C1: the theorem applied to the example pool, first call. -/
theorem C1_acquisition_ordering_witness :
    ((acquireNextProxy true 10000 1440 demoPool).1 = some recB) ∧
    ((recB ∈ demoPool ∧ eligible 10000 1440 recB = true ∧
      (∀ ts, recB.tested_timestamp = some ts → 10000 ≤ ts + 1440) ∧
      (∀ q ∈ demoPool, eligible 10000 1440 q = true → keyLe recB q = true)) ∧
     ((acquireNextProxy true 10000 1440 demoPool).1 = some recB ∧
      (acquireNextProxy true 10000 1440
        (acquireNextProxy true 10000 1440 demoPool).2).1 = some recA ∧
      (acquireNextProxy true 10000 1440
        (acquireNextProxy true 10000 1440
          (acquireNextProxy true 10000 1440 demoPool).2).2).1 = some recC)) :=
  ⟨by decide, C1_acquisition_ordering 10000 1440 demoPool recB (by decide)⟩

/-! ## Claim C2: counting lemmas for the lock model -/

/-- Removing the rows with one fixed id costs at most one row when the ids
of the list are distinct. -/
theorem length_filter_ne_id {l : List ProxyRecord}
    (hn : (l.map (fun r => r.id)).Nodup) (i : Nat) :
    l.length ≤ (l.filter (fun q => !(decide (i = q.id)))).length + 1 := by
  induction l with
  | nil => simp
  | cons a t ih =>
    simp only [List.map_cons, List.nodup_cons] at hn
    by_cases hai : i = a.id
    · have hrest : t.filter (fun q => !(decide (i = q.id))) = t := by
        rw [List.filter_eq_self]
        intro q hq
        have hne : q.id ≠ i := by
          intro he
          apply hn.1
          rw [← hai, ← he]
          exact List.mem_map_of_mem (fun r => r.id) hq
        simp [Ne.symm hne]
      simp only [List.filter_cons]
      rw [if_neg (by simp [hai]), hrest]
      simp
    · simp only [List.filter_cons]
      rw [if_pos (by simp [hai])]
      have := ih hn.2
      simp only [List.length_cons]
      omega

/-- The ids of any sublist of a pool with distinct ids stay distinct. -/
theorem nodup_ids_filter {l : List ProxyRecord}
    (hn : (l.map (fun r => r.id)).Nodup) (p : ProxyRecord → Bool) :
    ((l.filter p).map (fun r => r.id)).Nodup :=
  hn.sublist (List.Sublist.map _ (List.filter_sublist l))

/-- Main induction for the lock model: with distinct row ids and at least
n eligible unlocked rows, n overlapping claims all succeed, hand out
pairwise distinct rows, and every row handed out is eligible and was not
locked at the start. -/
theorem claimConcurrent_spec (now maxAge : Nat) :
    ∀ (n : Nat) (locked : List Nat) (pool : List ProxyRecord),
      (pool.map (fun r => r.id)).Nodup →
      n ≤ (pool.filter
            (fun r => eligible now maxAge r && !(decide (r.id ∈ locked)))).length →
      ∃ rs, claimConcurrent now maxAge n locked pool = some rs ∧
        rs.length = n ∧ (rs.map (fun r => r.id)).Nodup ∧
        ∀ r2 ∈ rs, eligible now maxAge r2 = true ∧ r2.id ∉ locked := by
  intro n
  induction n with
  | zero =>
    intro locked pool _ _
    exact ⟨[], rfl, rfl, List.nodup_nil, by intro r2 hr2; simp at hr2⟩
  | succ n ih =>
    intro locked pool hn hlen
    have hpos : 0 < (pool.filter
        (fun r => eligible now maxAge r && !(decide (r.id ∈ locked)))).length :=
      Nat.lt_of_lt_of_le (Nat.succ_pos n) hlen
    obtain ⟨q, hq⟩ := List.exists_mem_of_length_pos hpos
    obtain ⟨r, hr⟩ :=
      @selectBy_isSome (fun r => eligible now maxAge r && !(decide (r.id ∈ locked)))
        pool q (List.mem_filter.mp hq).1 (List.mem_filter.mp hq).2
    have hrpred := selectBy_predHolds hr
    simp only [Bool.and_eq_true, Bool.not_eq_true', decide_eq_false_iff_not] at hrpred
    have hfilter :
        pool.filter
            (fun q2 => eligible now maxAge q2 && !(decide (q2.id ∈ r.id :: locked)))
          = (pool.filter
              (fun q2 => eligible now maxAge q2 && !(decide (q2.id ∈ locked)))).filter
              (fun q2 => !(decide (r.id = q2.id))) := by
      rw [List.filter_filter]
      apply List.filter_congr
      intro a _
      have hsy : (r.id = a.id) ↔ (a.id = r.id) := eq_comm
      by_cases hc : a.id ∈ locked <;> by_cases he : a.id = r.id <;>
        simp [hc, he, List.mem_cons, hsy]
    have hcount := length_filter_ne_id
      (nodup_ids_filter hn
        (fun q2 => eligible now maxAge q2 && !(decide (q2.id ∈ locked)))) r.id
    have hlen2 : n ≤ (pool.filter
        (fun q2 => eligible now maxAge q2 && !(decide (q2.id ∈ r.id :: locked)))).length := by
      rw [hfilter]
      omega
    obtain ⟨rs, hrs, hlenrs, hnodup, hall⟩ := ih (r.id :: locked) pool hn hlen2
    refine ⟨r :: rs, ?_, by simp [hlenrs], ?_, ?_⟩
    · simp only [claimConcurrent, selectSkipLocked]
      rw [hr]
      dsimp only
      rw [hrs]
      rfl
    · simp only [List.map_cons, List.nodup_cons]
      refine ⟨?_, hnodup⟩
      intro hmem
      obtain ⟨r2, hr2mem, hr2id⟩ := List.mem_map.mp hmem
      exact (hall r2 hr2mem).2 (hr2id ▸ List.mem_cons_self r.id locked)
    · intro r2 hr2
      rcases List.mem_cons.mp hr2 with rfl | hm
      · exact ⟨hrpred.1, hrpred.2⟩
      · exact ⟨(hall r2 hm).1, fun hc => (hall r2 hm).2 (List.mem_cons_of_mem _ hc)⟩

/-- C2: N concurrent acquisition calls against a pool with distinct row
ids and at least N eligible rows are each handed a row no other in-flight
claimant holds: all N calls succeed and the N rows are pairwise distinct.
The FOR UPDATE SKIP LOCKED discipline is modelled by the accumulated
locked-id set that each select skips. -/
theorem C2_concurrent_acquisition_distinct (now maxAge N : Nat)
    (pool : List ProxyRecord) (hids : (pool.map (fun r => r.id)).Nodup)
    (hN : N ≤ (pool.filter (eligible now maxAge)).length) :
    ∃ rs, claimConcurrent now maxAge N [] pool = some rs ∧
      rs.length = N ∧ (rs.map (fun r => r.id)).Nodup := by
  have hbase : pool.filter
      (fun r => eligible now maxAge r && !(decide (r.id ∈ ([] : List Nat))))
      = pool.filter (eligible now maxAge) := by
    apply List.filter_congr
    intro a _
    simp
  obtain ⟨rs, h1, h2, h3, _⟩ :=
    claimConcurrent_spec now maxAge N [] pool hids (by rw [hbase]; exact hN)
  exact ⟨rs, h1, h2, h3⟩

/-- Witness for C2: two overlapping claims on the two-record demo pool. -/
theorem C2_concurrent_acquisition_distinct_witness :
    ((([recA, recB].map (fun r => r.id)).Nodup ∧
      2 ≤ ([recA, recB].filter (eligible 10000 43200)).length) ∧
     ∃ rs, claimConcurrent 10000 43200 2 [] [recA, recB] = some rs ∧
       rs.length = 2 ∧ (rs.map (fun r => r.id)).Nodup) :=
  ⟨⟨by decide, by decide⟩,
    C2_concurrent_acquisition_distinct 10000 43200 2 [recA, recB]
      (by decide) (by decide)⟩

/-! ## Claim C3: frame lemmas for the upsert -/

/-- The fields the ON DUPLICATE KEY UPDATE clause never mentions. -/
def framePreserved (rn r : ProxyRecord) : Prop :=
  rn.id = r.id ∧ rn.ip = r.ip ∧ rn.port = r.port ∧ rn.working = r.working ∧
  rn.tested_timestamp = r.tested_timestamp ∧
  rn.last_used_timestamp = r.last_used_timestamp ∧
  rn.latency = r.latency ∧ rn.tested_ip = r.tested_ip ∧
  rn.error_message = r.error_message ∧ rn.created_at = r.created_at

theorem framePreserved_refl (r : ProxyRecord) : framePreserved r r := by
  unfold framePreserved
  exact ⟨rfl, rfl, rfl, rfl, rfl, rfl, rfl, rfl, rfl, rfl⟩

theorem framePreserved_trans {a b c : ProxyRecord}
    (h1 : framePreserved a b) (h2 : framePreserved b c) : framePreserved a c := by
  unfold framePreserved at *
  obtain ⟨e1, e2, e3, e4, e5, e6, e7, e8, e9, e10⟩ := h1
  obtain ⟨f1, f2, f3, f4, f5, f6, f7, f8, f9, f10⟩ := h2
  exact ⟨e1.trans f1, e2.trans f2, e3.trans f3, e4.trans f4, e5.trans f5,
    e6.trans f6, e7.trans f7, e8.trans f8, e9.trans f9, e10.trans f10⟩

/-- The row mapper of the duplicate-key branch preserves the frame. -/
theorem upsertMap_framePreserved (now : Nat) (it : NormItem) (r : ProxyRecord) :
    framePreserved
      (if r.ip == it.ip && r.port == it.port then
        { r with proxy_url := it.proxy_url, proxy_type := it.proxy_type,
                 source := it.source, updated_at := now }
      else r) r := by
  split
  · exact ⟨rfl, rfl, rfl, rfl, rfl, rfl, rfl, rfl, rfl, rfl⟩
  · exact framePreserved_refl r

/-- find? commutes with a row transformation that keeps the unique key. -/
theorem findByKey_map (pool : List ProxyRecord) (f : ProxyRecord → ProxyRecord)
    (hkeep : ∀ r, (f r).ip = r.ip ∧ (f r).port = r.port) (ip : String) (port : Nat) :
    findByKey (pool.map f) ip port = (findByKey pool ip port).map f := by
  unfold findByKey
  rw [List.find?_map]
  have hpred : ((fun r : ProxyRecord => r.ip == ip && r.port == port) ∘ f)
      = (fun r : ProxyRecord => r.ip == ip && r.port == port) := by
    funext r
    simp [Function.comp, (hkeep r).1, (hkeep r).2]
  rw [hpred]

/-- One upsert step: any row found before is still found, with every field
outside proxy_url, proxy_type, source and updated_at unchanged. -/
theorem upsertOne_preserves {pool : List ProxyRecord} {ip : String} {port : Nat}
    {r : ProxyRecord} (now : Nat) (it : NormItem)
    (h : findByKey pool ip port = some r) :
    ∃ rn, findByKey (upsertOne now pool it) ip port = some rn ∧ framePreserved rn r := by
  unfold upsertOne
  split
  · rw [findByKey_map]
    · rw [h]
      exact ⟨_, rfl, upsertMap_framePreserved now it r⟩
    · intro q
      constructor <;> (split <;> rfl)
  · unfold findByKey at h ⊢
    rw [List.find?_append, h]
    exact ⟨r, rfl, framePreserved_refl r⟩

/-- One upsert step on an absent key different from the item key keeps the
key absent. -/
theorem upsertOne_absent_other {pool : List ProxyRecord} {ip : String} {port : Nat}
    (now : Nat) (it : NormItem) (h : findByKey pool ip port = none)
    (hne : ¬(it.ip = ip ∧ it.port = port)) :
    findByKey (upsertOne now pool it) ip port = none := by
  unfold upsertOne
  split
  · rw [findByKey_map]
    · rw [h]; rfl
    · intro q
      constructor <;> (split <;> rfl)
  · unfold findByKey at h ⊢
    rw [List.find?_append, h]
    simp only [Option.none_or]
    rw [List.find?_cons]
    split
    · next hcond =>
      exfalso
      apply hne
      simp only [freshRecord, Bool.and_eq_true, beq_iff_eq] at hcond
      exact hcond
    · rfl

/-- One upsert step on the item key with the key absent inserts exactly
the fresh row. -/
theorem upsertOne_inserts {pool : List ProxyRecord} (now : Nat) (it : NormItem)
    (h : findByKey pool it.ip it.port = none) :
    findByKey (upsertOne now pool it) it.ip it.port
      = some (freshRecord now pool it) := by
  have hkp : keyPresent pool it.ip it.port = false := by
    unfold keyPresent
    unfold findByKey at h
    rw [List.find?_eq_none] at h
    rw [List.any_eq_false]
    intro q hq
    simp only [Bool.not_eq_true]
    exact Bool.not_eq_true _ ▸ (by simpa using h q hq)
  unfold upsertOne
  rw [hkp]
  simp only [Bool.false_eq_true, if_false]
  unfold findByKey at h ⊢
  rw [List.find?_append, h]
  simp only [Option.none_or]
  rw [List.find?_cons]
  split
  · rfl
  · next hcond =>
    exfalso
    rw [Bool.eq_false_iff] at hcond
    apply hcond
    simp [freshRecord]

/-- Every field outside the update clause survives a whole fold of
upserts, whatever the items are. -/
theorem foldl_upsert_preserved (now : Nat) (L : List NormItem) :
    ∀ {pool : List ProxyRecord} {ip : String} {port : Nat} {r : ProxyRecord},
      findByKey pool ip port = some r →
      ∃ rn, findByKey (L.foldl (upsertOne now) pool) ip port = some rn ∧
        framePreserved rn r := by
  induction L with
  | nil => intro pool ip port r h; exact ⟨r, h, framePreserved_refl r⟩
  | cons it rest ih =>
    intro pool ip port r h
    obtain ⟨r1, h1, hf1⟩ := upsertOne_preserves now it h
    obtain ⟨rn, hn, hfn⟩ := ih h1
    exact ⟨rn, hn, framePreserved_trans hfn hf1⟩

/-- The keys of an in-memory deduplicated batch are distinct and avoid the
seen set. -/
theorem dedupGo_nodup (items : List NormItem) :
    ∀ seen : List (String × Nat),
      ((dedupGo items seen).map (fun x => (x.ip, x.port))).Nodup ∧
      ∀ it ∈ dedupGo items seen, (it.ip, it.port) ∉ seen := by
  induction items with
  | nil => intro seen; simp [dedupGo]
  | cons it rest ih =>
    intro seen
    simp only [dedupGo]
    by_cases hc : (it.ip, it.port) ∈ seen
    · rw [if_pos (decide_eq_true hc)]
      exact ih seen
    · rw [if_neg (by simp [hc])]
      constructor
      · simp only [List.map_cons, List.nodup_cons]
        refine ⟨?_, (ih ((it.ip, it.port) :: seen)).1⟩
        intro hmem
        obtain ⟨y, hy, hyk⟩ := List.mem_map.mp hmem
        exact (ih ((it.ip, it.port) :: seen)).2 y hy
          (by rw [hyk]; exact List.mem_cons_self _ _)
      · intro x hx
        rcases List.mem_cons.mp hx with rfl | hm
        · exact hc
        · exact fun hcs =>
            (ih ((it.ip, it.port) :: seen)).2 x hm (List.mem_cons_of_mem _ hcs)

/-- Once a batch item with a fresh key is inserted, the working flag and
test timestamp of its row stay at their insert values through the rest of
the batch (keys being distinct inside the deduplicated batch). -/
theorem foldl_upsert_new_key (now : Nat) (L : List NormItem)
    (hnd : (L.map (fun x => (x.ip, x.port))).Nodup) :
    ∀ {pool : List ProxyRecord} {it : NormItem}, it ∈ L →
      findByKey pool it.ip it.port = none →
      ∃ rn, findByKey (L.foldl (upsertOne now) pool) it.ip it.port = some rn ∧
        rn.working = false ∧ rn.tested_timestamp = none := by
  induction L with
  | nil => intro pool it hm; simp at hm
  | cons it0 rest ih =>
    intro pool it hm habs
    simp only [List.map_cons, List.nodup_cons] at hnd
    simp only [List.foldl_cons]
    rcases List.mem_cons.mp hm with rfl | hmr
    · have hins := upsertOne_inserts now it habs
      obtain ⟨rn, hfind, hfp⟩ := foldl_upsert_preserved now rest hins
      refine ⟨rn, hfind, ?_, ?_⟩
      · rw [hfp.2.2.2.1]; rfl
      · rw [hfp.2.2.2.2.1]; rfl
    · have hkne : ¬(it0.ip = it.ip ∧ it0.port = it.port) := by
        intro hk
        apply hnd.1
        have hmm : (it.ip, it.port) ∈ rest.map (fun x => (x.ip, x.port)) :=
          List.mem_map_of_mem _ hmr
        rw [hk.1, hk.2]
        exact hmm
      have habs2 := upsertOne_absent_other now it0 habs hkne
      exact ih hnd.2 hmr habs2

/-- The selection predicate on the unique key is untouched by the
duplicate-key row transformation. -/
theorem keyPred_comp (it : NormItem) (now : Nat) (ip : String) (port : Nat) :
    ((fun r : ProxyRecord => r.ip == ip && r.port == port) ∘
      (fun r : ProxyRecord =>
        if r.ip == it.ip && r.port == it.port then
          { r with proxy_url := it.proxy_url, proxy_type := it.proxy_type,
                   source := it.source, updated_at := now }
        else r))
    = (fun r : ProxyRecord => r.ip == ip && r.port == port) := by
  funext r
  simp only [Function.comp]
  split <;> rfl

/-- An upsert of an item whose key is present keeps the table size. -/
theorem upsertOne_length_of_present {pool : List ProxyRecord} {it : NormItem}
    (now : Nat) (h : keyPresent pool it.ip it.port = true) :
    (upsertOne now pool it).length = pool.length := by
  unfold upsertOne
  rw [if_pos h]
  exact List.length_map _ _

/-- After an upsert of an item, its key is present. -/
theorem upsertOne_keyPresent_self (now : Nat) (pool : List ProxyRecord)
    (it : NormItem) : keyPresent (upsertOne now pool it) it.ip it.port = true := by
  unfold upsertOne
  split
  · next h =>
    unfold keyPresent at h ⊢
    rw [List.any_map, keyPred_comp]
    exact h
  · unfold keyPresent
    rw [List.any_append]
    have hfr : List.any [freshRecord now pool it]
        (fun r => r.ip == it.ip && r.port == it.port) = true := by
      simp [freshRecord]
    rw [hfr, Bool.or_true]

/-- An upsert never removes a key from the table. -/
theorem upsertOne_keyPresent_mono {pool : List ProxyRecord} {ip : String}
    {port : Nat} (now : Nat) (it : NormItem)
    (h : keyPresent pool ip port = true) :
    keyPresent (upsertOne now pool it) ip port = true := by
  unfold upsertOne
  split
  · unfold keyPresent at h ⊢
    rw [List.any_map, keyPred_comp]
    exact h
  · unfold keyPresent at h ⊢
    rw [List.any_append, h, Bool.true_or]

/-- A whole fold of upserts never removes a key. -/
theorem foldl_upsert_keyPresent_mono (now : Nat) (L : List NormItem) :
    ∀ {pool : List ProxyRecord} {ip : String} {port : Nat},
      keyPresent pool ip port = true →
      keyPresent (L.foldl (upsertOne now) pool) ip port = true := by
  induction L with
  | nil => intro pool ip port h; exact h
  | cons it rest ih =>
    intro pool ip port h
    simp only [List.foldl_cons]
    exact ih (upsertOne_keyPresent_mono now it h)

/-- After a fold of upserts, the key of every item of the batch is
present. -/
theorem foldl_upsert_item_present (now : Nat) (L : List NormItem) :
    ∀ {pool : List ProxyRecord} {it : NormItem}, it ∈ L →
      keyPresent (L.foldl (upsertOne now) pool) it.ip it.port = true := by
  induction L with
  | nil => intro pool it hm; simp at hm
  | cons it0 rest ih =>
    intro pool it hm
    simp only [List.foldl_cons]
    rcases List.mem_cons.mp hm with rfl | hmr
    · exact foldl_upsert_keyPresent_mono now rest
        (upsertOne_keyPresent_self now pool it)
    · exact ih hmr

/-- A fold of upserts whose item keys are all already present keeps the
table size. -/
theorem foldl_upsert_length (now : Nat) (L : List NormItem) :
    ∀ {pool : List ProxyRecord},
      (∀ it ∈ L, keyPresent pool it.ip it.port = true) →
      (L.foldl (upsertOne now) pool).length = pool.length := by
  induction L with
  | nil => intro pool _; rfl
  | cons it0 rest ih =>
    intro pool hall
    simp only [List.foldl_cons]
    have h0 := hall it0 (List.mem_cons_self _ _)
    rw [ih, upsertOne_length_of_present now h0]
    intro it hm
    exact upsertOne_keyPresent_mono now it0 (hall it (List.mem_cons_of_mem _ hm))

/-- A tested, working pool row for the C3 witness. -/
def wRec : ProxyRecord :=
  { id := 1, ip := "1.1.1.1", port := 80, proxy_url := "socks5://1.1.1.1:80",
    proxy_type := "SOCKS5", source := "g", working := true,
    tested_timestamp := some 5, last_used_timestamp := some 3,
    latency := some 12, tested_ip := some "9.9.9.9", error_message := none,
    created_at := 0, updated_at := 0 }

/-- The C3 witness batch: the present pair with a new scheme, and a new
pair. -/
def wBatch : List NormItem :=
  [ { ip := "1.1.1.1", port := 80, proxy_url := "http://1.1.1.1:80",
      proxy_type := "HTTP", source := "h" },
    { ip := "2.2.2.2", port := 81, proxy_url := "socks5://2.2.2.2:81",
      proxy_type := "SOCKS5", source := "h" } ]

/-- C3: _bulk_upsert touches, for an already present (ip, port) pair, only
proxy_url, proxy_type, source and the update timestamp: the working flag,
test timestamp, last-used timestamp, latency, tested ip, error message and
row id of the pair are unchanged; a pair absent from the pool is inserted
with working false and no test timestamp; and upserting the same batch a
second time leaves the pool size unchanged. -/
theorem C3_bulk_upsert_frame (now now2 : Nat) (pool : List ProxyRecord)
    (items : List NormItem) (ip : String) (port : Nat) (r : ProxyRecord)
    (h : findByKey pool ip port = some r) :
    (∃ rn, findByKey (bulkUpsert now pool items) ip port = some rn ∧
       rn.working = r.working ∧ rn.tested_timestamp = r.tested_timestamp ∧
       rn.last_used_timestamp = r.last_used_timestamp ∧ rn.latency = r.latency ∧
       rn.tested_ip = r.tested_ip ∧ rn.error_message = r.error_message ∧
       rn.id = r.id) ∧
    (∀ it ∈ dedupFirst items, findByKey pool it.ip it.port = none →
       ∃ rn, findByKey (bulkUpsert now pool items) it.ip it.port = some rn ∧
         rn.working = false ∧ rn.tested_timestamp = none) ∧
    (bulkUpsert now2 (bulkUpsert now pool items) items).length
      = (bulkUpsert now pool items).length := by
  refine ⟨?_, ?_, ?_⟩
  · obtain ⟨rn, hf, hp⟩ := foldl_upsert_preserved now (dedupFirst items) h
    exact ⟨rn, hf, hp.2.2.2.1, hp.2.2.2.2.1, hp.2.2.2.2.2.1, hp.2.2.2.2.2.2.1,
      hp.2.2.2.2.2.2.2.1, hp.2.2.2.2.2.2.2.2.1, hp.1⟩
  · intro it hm habs
    exact foldl_upsert_new_key now (dedupFirst items)
      (dedupGo_nodup items []).1 hm habs
  · apply foldl_upsert_length
    intro it hm
    exact foldl_upsert_item_present now (dedupFirst items) hm

/-- Witness for C3: a pool holding a tested working row for (1.1.1.1, 80)
and a batch that re-ingests that pair and adds a new one. -/
theorem C3_bulk_upsert_frame_witness :
    (findByKey [wRec] "1.1.1.1" 80 = some wRec) ∧
    ((∃ rn, findByKey (bulkUpsert 7 [wRec] wBatch) "1.1.1.1" 80 = some rn ∧
       rn.working = wRec.working ∧ rn.tested_timestamp = wRec.tested_timestamp ∧
       rn.last_used_timestamp = wRec.last_used_timestamp ∧ rn.latency = wRec.latency ∧
       rn.tested_ip = wRec.tested_ip ∧ rn.error_message = wRec.error_message ∧
       rn.id = wRec.id) ∧
     (∀ it ∈ dedupFirst wBatch, findByKey [wRec] it.ip it.port = none →
       ∃ rn, findByKey (bulkUpsert 7 [wRec] wBatch) it.ip it.port = some rn ∧
         rn.working = false ∧ rn.tested_timestamp = none) ∧
     (bulkUpsert 8 (bulkUpsert 7 [wRec] wBatch) wBatch).length
       = (bulkUpsert 7 [wRec] wBatch).length) :=
  ⟨by decide, C3_bulk_upsert_frame 7 8 [wRec] wBatch "1.1.1.1" 80 wRec (by decide)⟩

/-! ## Claim C4 -/

/-- Looking a key up in a deduplicated batch: if the key was not already
seen, the deduplicated batch answers exactly as the raw batch does (the
first occurrence); if it was seen, the key does not occur at all. -/
theorem dedupGo_find (ip : String) (port : Nat) :
    ∀ (items : List NormItem) (seen : List (String × Nat)),
      ((ip, port) ∉ seen →
        (dedupGo items seen).find? (fun x => x.ip == ip && x.port == port)
          = items.find? (fun x => x.ip == ip && x.port == port)) ∧
      ((ip, port) ∈ seen →
        (dedupGo items seen).find? (fun x => x.ip == ip && x.port == port)
          = none) := by
  intro items
  induction items with
  | nil => intro seen; simp [dedupGo]
  | cons it rest ih =>
    intro seen
    simp only [dedupGo]
    by_cases hc : (it.ip, it.port) ∈ seen
    · rw [if_pos (decide_eq_true hc)]
      constructor
      · intro hns
        have hpf : (it.ip == ip && it.port == port) = false := by
          rw [Bool.eq_false_iff]
          intro hk
          rw [Bool.and_eq_true, beq_iff_eq, beq_iff_eq] at hk
          exact hns (by rw [← hk.1, ← hk.2]; exact hc)
        simp only [List.find?_cons, hpf]
        exact (ih seen).1 hns
      · exact (ih seen).2
    · rw [if_neg (by simp [hc])]
      constructor
      · intro hns
        by_cases hp : (it.ip == ip && it.port == port) = true
        · simp only [List.find?_cons, hp]
        · have hpf := Bool.eq_false_iff.mpr hp
          simp only [List.find?_cons, hpf]
          apply (ih ((it.ip, it.port) :: seen)).1
          intro hm
          rcases List.mem_cons.mp hm with he | hm2
          · apply hp
            rw [Bool.and_eq_true, beq_iff_eq, beq_iff_eq]
            rw [Prod.mk.injEq] at he
            exact ⟨he.1.symm, he.2.symm⟩
          · exact hns hm2
      · intro hs
        have hpf : (it.ip == ip && it.port == port) = false := by
          rw [Bool.eq_false_iff]
          intro hk
          rw [Bool.and_eq_true, beq_iff_eq, beq_iff_eq] at hk
          exact hc (by rw [hk.1, hk.2]; exact hs)
        simp only [List.find?_cons, hpf]
        exact (ih ((it.ip, it.port) :: seen)).2 (List.mem_cons_of_mem _ hs)

/-- The candidate the code actually keeps for (1.1.1.1, 80) in the spec
example batch: both lines normalize to the socks5 form, and the first one
is retained. -/
def keptSpecExample : NormItem :=
  { ip := "1.1.1.1", port := 80, proxy_url := "socks5://1.1.1.1:80",
    proxy_type := "SOCKS5", source := "g" }

/-- C4 counterexample: the claim says in-batch deduplication keeps the
last-seen entry for a pair.  On the concrete batch with the line
http://1.1.1.1:80 followed by socks5://1.1.1.1:80, the last-seen entry for
(1.1.1.1, 80) is the socks5 one, but _bulk_upsert keeps the earlier http
entry, so the kept candidate differs from the last-seen entry. -/
theorem C4_dedup_counterexample :
    (normalizeLines ["http://1.1.1.1:80", "socks5://1.1.1.1:80"] "SOCKS5" "g").getLast?
       = some { ip := "1.1.1.1", port := 80, proxy_url := "socks5://1.1.1.1:80",
                proxy_type := "SOCKS5", source := "g" } ∧
    dedupFirst (normalizeLines ["http://1.1.1.1:80", "socks5://1.1.1.1:80"] "SOCKS5" "g")
       = [{ ip := "1.1.1.1", port := 80, proxy_url := "http://1.1.1.1:80",
            proxy_type := "HTTP", source := "g" }] ∧
    ({ ip := "1.1.1.1", port := 80, proxy_url := "http://1.1.1.1:80",
       proxy_type := "HTTP", source := "g" } : NormItem)
      ≠ { ip := "1.1.1.1", port := 80, proxy_url := "socks5://1.1.1.1:80",
          proxy_type := "SOCKS5", source := "g" } := by
  refine ⟨by decide, by decide, by decide⟩

/-- C4 amended: in-batch deduplication keeps the FIRST-seen entry for each
(host, port) pair — the deduplicated batch answers any key lookup with the
first matching entry of the raw batch; and the spec example batch
(1.1.1.1:80 then socks5://1.1.1.1:80, default type SOCKS5) still yields
exactly one candidate for (1.1.1.1, 80) whose scheme is socks5, because
the first line already normalizes to the socks5 scheme. -/
theorem C4_dedup_first_seen (items : List NormItem) (ip : String) (port : Nat)
    (it : NormItem)
    (h : (dedupFirst items).find? (fun x => x.ip == ip && x.port == port)
      = some it) :
    items.find? (fun x => x.ip == ip && x.port == port) = some it ∧
    dedupFirst (normalizeLines ["1.1.1.1:80", "socks5://1.1.1.1:80"] "SOCKS5" "g")
      = [keptSpecExample] := by
  constructor
  · rw [← (dedupGo_find ip port items []).1 (List.not_mem_nil _)]
    exact h
  · decide

/-- Witness for C4 amended: the lookup of (1.1.1.1, 80) in the example. -/
theorem C4_dedup_first_seen_witness :
    ((dedupFirst (normalizeLines ["1.1.1.1:80", "socks5://1.1.1.1:80"] "SOCKS5" "g")).find?
        (fun x => x.ip == "1.1.1.1" && x.port == 80) = some keptSpecExample) ∧
    ((normalizeLines ["1.1.1.1:80", "socks5://1.1.1.1:80"] "SOCKS5" "g").find?
        (fun x => x.ip == "1.1.1.1" && x.port == 80) = some keptSpecExample ∧
     dedupFirst (normalizeLines ["1.1.1.1:80", "socks5://1.1.1.1:80"] "SOCKS5" "g")
       = [keptSpecExample]) :=
  ⟨by decide,
    C4_dedup_first_seen
      (normalizeLines ["1.1.1.1:80", "socks5://1.1.1.1:80"] "SOCKS5" "g")
      "1.1.1.1" 80 keptSpecExample (by decide)⟩

/-! ## Claims C5 and C6 -/

/-- A tested record carrying old success data, probed again in the C5
counterexample. -/
def wProbeRec : ProxyRecord :=
  { id := 9, ip := "5.5.5.5", port := 1080, proxy_url := "socks5://5.5.5.5:1080",
    proxy_type := "SOCKS5", source := "g", working := true,
    tested_timestamp := some 50, last_used_timestamp := none,
    latency := some 99, tested_ip := some "5.5.5.5", error_message := none,
    created_at := 0, updated_at := 0 }

/-- C5 counterexample: a probe answered with HTTP 503 after 3 time units
is recorded as a failure, yet the written row carries latency = 3 — the
elapsed time measured before the status check — instead of the cleared
latency the claim requires on failure. -/
theorem C5_failure_latency_counterexample :
    ((applyUpdate 100 (validateOne 3 (ProbeResult.response 503 "oops"))
        wProbeRec).working = false) ∧
    ((applyUpdate 100 (validateOne 3 (ProbeResult.response 503 "oops"))
        wProbeRec).latency = some 3) ∧
    some 3 ≠ (none : Option Nat) := by
  refine ⟨by decide, by decide, by decide⟩

/-- C5 amended: the recorded outcome of one probe of validate_proxies
always stamps tested_timestamp = now and writes all outcome fields
together; on success (status 200, nonempty stripped body) working is set
with latency = elapsed, tested ip = the stripped body truncated to 45
characters, and the error cleared; on an HTTP response that is rejected
the row keeps the measured elapsed time as latency (only an exception
clears it), with error HTTP status on a non-200 response and, on a 200
response with empty body, an empty tested ip and no error; an exception
clears latency and tested ip and bounds the error text to 500 characters.
The _test_proxies_with_condition path always writes latency as NULL. -/
theorem C5_outcome_recording (elapsed now : Nat) (pr : ProbeResult)
    (r : ProxyRecord) (success : Bool) (msg : String) :
    ((applyUpdate now (validateOne elapsed pr) r).tested_timestamp = some now) ∧
    (match pr with
     | ProbeResult.response st body =>
        if st = 200 then
          if pySlice 45 (pyStrip body) = "" then
            (applyUpdate now (validateOne elapsed pr) r).working = false ∧
            (applyUpdate now (validateOne elapsed pr) r).latency = some elapsed ∧
            (applyUpdate now (validateOne elapsed pr) r).tested_ip = some "" ∧
            (applyUpdate now (validateOne elapsed pr) r).error_message = none
          else
            (applyUpdate now (validateOne elapsed pr) r).working = true ∧
            (applyUpdate now (validateOne elapsed pr) r).latency = some elapsed ∧
            (applyUpdate now (validateOne elapsed pr) r).tested_ip
              = some (pySlice 45 (pyStrip body)) ∧
            (applyUpdate now (validateOne elapsed pr) r).error_message = none
        else
          (applyUpdate now (validateOne elapsed pr) r).working = false ∧
          (applyUpdate now (validateOne elapsed pr) r).latency = some elapsed ∧
          (applyUpdate now (validateOne elapsed pr) r).tested_ip = none ∧
          (applyUpdate now (validateOne elapsed pr) r).error_message
            = some ("HTTP " ++ toString st)
     | ProbeResult.exn m =>
          (applyUpdate now (validateOne elapsed pr) r).working = false ∧
          (applyUpdate now (validateOne elapsed pr) r).latency = none ∧
          (applyUpdate now (validateOne elapsed pr) r).tested_ip = none ∧
          (applyUpdate now (validateOne elapsed pr) r).error_message
            = some (pySlice 500 m) ∧
          (pySlice 500 m).length ≤ 500) ∧
    ((condTestOne success msg).latency = none) := by
  refine ⟨rfl, ?_, ?_⟩
  · cases pr with
    | response st body =>
      dsimp only
      by_cases hst : st = 200
      · rw [if_pos hst]
        by_cases hb : pySlice 45 (pyStrip body) = ""
        · rw [if_pos hb]
          refine ⟨?_, ?_, ?_, ?_⟩ <;>
            simp [applyUpdate, validateOne, hst, hb]
        · rw [if_neg hb]
          refine ⟨?_, ?_, ?_, ?_⟩ <;>
            simp [applyUpdate, validateOne, hst, hb]
      · rw [if_neg hst]
        refine ⟨?_, ?_, ?_, ?_⟩ <;>
          simp [applyUpdate, validateOne, hst]
    | exn m =>
      dsimp only
      refine ⟨rfl, rfl, rfl, rfl, ?_⟩
      exact List.length_take_le _ _
  · cases success <;> simp [condTestOne]

/-- The 60-character body used against the validate_proxies acceptance. -/
def longBody : String := String.mk (List.replicate 60 <| 'a')

/-- C6 counterexample: validate_proxies accepts a 200 response whose body
has 60 characters — far beyond the under-50 short-literal bound of the
claim — and records it as a success (the body is merely truncated to 45
characters for storage). -/
theorem C6_long_body_counterexample :
    (validateOne 1 (ProbeResult.response 200 longBody)).ok = true ∧
    50 ≤ (pyStrip longBody).length := by
  refine ⟨by decide, by decide⟩

/-- C6 amended: the short-literal guard lives only in test_proxy: its
probe succeeds exactly when some tried protocol got status 200 and a
nonempty stripped body shorter than 50 characters; the probe of
validate_proxies instead accepts any 200 response whose stripped body is
nonempty, with no length bound. -/
theorem C6_acceptance_bounds (st : Nat) (body : String) (elapsed : Nat)
    (attempts : List (Option (Nat × String))) :
    (testProxyAccept st body = true ↔
      (st = 200 ∧ pyStrip body ≠ "" ∧ (pyStrip body).length < 50)) ∧
    ((validateOne elapsed (ProbeResult.response st body)).ok = true ↔
      (st = 200 ∧ pyStrip body ≠ "")) ∧
    (testProxySucceeds attempts = true ↔
      ∃ a ∈ attempts, ∃ st2 b2, a = some (st2, b2) ∧
        testProxyAccept st2 b2 = true) := by
  refine ⟨?_, ?_, ?_⟩
  · simp [testProxyAccept, and_assoc]
  · have hsl : (pySlice 45 (pyStrip body) = "") ↔ (pyStrip body = "") := by
      unfold pySlice
      constructor
      · intro h
        have hdata : (pyStrip body).data.take 45 = [] := by
          have := congrArg String.data h
          simpa using this
        rcases List.take_eq_nil_iff.mp hdata with h1 | h1
        · simp at h1
        · cases hps : pyStrip body with
          | mk d =>
            rw [hps] at h1
            simp at h1
            rw [h1]
      · intro h
        rw [h]
        rfl
    by_cases hst : st = 200
    · simp only [validateOne, if_pos hst]
      constructor
      · intro hok
        refine ⟨hst, ?_⟩
        intro hemp
        rw [← hsl] at hemp
        simp [hemp] at hok
      · intro hok
        have := (not_iff_not.mpr hsl).mpr hok.2
        simp [this]
    · simp only [validateOne, if_neg hst]
      constructor
      · intro hok; simp at hok
      · intro hok; exact absurd hok.1 hst
  · unfold testProxySucceeds
    rw [List.any_eq_true]
    constructor
    · rintro ⟨a, ha, hpa⟩
      cases a with
      | none => simp at hpa
      | some p =>
        obtain ⟨st2, b2⟩ := p
        exact ⟨some (st2, b2), ha, st2, b2, rfl, hpa⟩
    · rintro ⟨a, ha, st2, b2, rfl, hacc⟩
      exact ⟨some (st2, b2), ha, hacc⟩

/-! ## Claim C7 -/

/-- C7, evaluated at the failing scenario: session() is entered with
auto_rotate_on_fail = true and retries = 2, and the scoped work raises on
its first run.  The generator catches the thrown exception and reaches its
second yield statement, so contextlib raises RuntimeError (generator did
not stop after throw): the caller sees RuntimeError, the scoped work is
never re-run, and the call neither succeeds nor surfaces the original
failure — contradicting the claimed rotate-backoff-retry contract. -/
theorem C7_session_retry_never_reruns :
    sessionCall true 2 true = SessionOutcome.runtimeError ∧
    sessionCall true 2 true ≠ SessionOutcome.success ∧
    sessionOnThrow true 2 = ThrowBehavior.yielded ∧
    sessionCall true 1 true = SessionOutcome.runtimeError ∧
    sessionCall true 0 true = SessionOutcome.originalError ∧
    sessionCall false 2 true = SessionOutcome.originalError ∧
    sessionCall true 2 false = SessionOutcome.success := by
  refine ⟨rfl, by decide, rfl, rfl, rfl, rfl, rfl⟩

/-! ## Claim C9 -/

/-- C9 counterexample: when the SELECT of _acquire_next_proxy fails with a
store error, the except branch rolls back and returns None — exactly the
value returned when the store is fine but no eligible row exists.  The
claim that a store failure is surfaced and is not reported as the ordinary
no-proxy-available empty outcome is therefore false for acquisition. -/
theorem C9_acquire_swallows_store_failure :
    acquireOutcome (StoreResult.unavailable) = none ∧
    acquireOutcome (StoreResult.ok none) = none ∧
    acquireOutcome (StoreResult.unavailable) = acquireOutcome (StoreResult.ok none) := by
  refine ⟨rfl, rfl, rfl⟩

/-- C9 amended: _bulk_upsert does satisfy the claim — a store failure is
re-raised to the caller after a rollback that leaves the pool exactly as
it was, with no partial write; _acquire_next_proxy instead rolls its
transaction back but absorbs the failure and returns None, the same empty
outcome as no proxy available, so its caller cannot distinguish a store
failure from an empty pool. -/
theorem C9_store_failure_paths (now : Nat) (pool : List ProxyRecord)
    (items : List NormItem) :
    ((bulkUpsertRun now pool items StoreResult.unavailable).1
       = Except.error "store unavailable") ∧
    ((bulkUpsertRun now pool items StoreResult.unavailable).2 = pool) ∧
    (acquireOutcome (StoreResult.unavailable) = none) ∧
    (acquireOutcome (StoreResult.unavailable)
       = acquireOutcome (StoreResult.ok none)) := by
  refine ⟨rfl, rfl, rfl, rfl⟩

/-! ## Claim C10 -/

/-- C10: entering session() with an empty latch over a pool with no
eligible row does not fail: rotation leaves the latch empty and _bind
installs nothing, so the caller receives a requests.Session with no proxy
mapping bound — its requests go direct rather than through a proxy. -/
theorem C10_session_direct_when_no_proxy (now : Nat) (pool : List ProxyRecord)
    (h : ∀ q ∈ pool, eligible now 1440 q = false) :
    sessionEntry none now pool = (none, none) := by
  unfold sessionEntry rotateProxy acquireNextProxy
  have hsel : selectBy (acquireCond true now 1440) pool = none := by
    cases hs : selectBy (acquireCond true now 1440) pool with
    | none => rfl
    | some b =>
      have hb := selectBy_predHolds hs
      have hmem := selectBy_mem hs
      rw [show acquireCond true now 1440 b = eligible now 1440 b by
            simp [acquireCond]] at hb
      rw [h b hmem] at hb
      cases hb
  rw [hsel]
  rfl

/-- A stale working record: tested far before the 24 hour rotation
window. -/
def staleRec : ProxyRecord :=
  { recA with id := 7, tested_timestamp := some 100 }

/-- Witness for C10: a pool holding only a stale record (now = 10000,
tested at 100, window 1440) yields a session with nothing bound. -/
theorem C10_session_direct_when_no_proxy_witness :
    (∀ q ∈ [staleRec], eligible 10000 1440 q = false) ∧
    sessionEntry none 10000 [staleRec] = (none, none) :=
  ⟨by decide, C10_session_direct_when_no_proxy 10000 [staleRec] (by decide)⟩

/-! ## Claim C8 -/

/-- The scheme group of IP_PORT_RE can only be empty or one of the four
scheme literals. -/
theorem stripScheme_cases (s : String) :
    (stripScheme s).1 = none ∨ (stripScheme s).1 = some "https" ∨
    (stripScheme s).1 = some "http" ∨ (stripScheme s).1 = some "socks5" ∨
    (stripScheme s).1 = some "socks4" := by
  unfold stripScheme
  split
  · right; left; rfl
  · split
    · right; right; left; rfl
    · split
      · right; right; right; left; rfl
      · split
        · right; right; right; right; rfl
        · left; rfl

/-- The scheme group of a successfully parsed candidate line. -/
theorem parseCandidate_scheme {raw : String} {m : Option String} {ip : String}
    {port : Nat} (h : parseCandidate raw = some (m, ip, port)) :
    m = none ∨ m = some "https" ∨ m = some "http" ∨
    m = some "socks5" ∨ m = some "socks4" := by
  unfold parseCandidate at h
  dsimp only at h
  split at h
  · simp at h
  · unfold matchIpPort at h
    dsimp only at h
    cases hs : splitHostPort (stripScheme (pyStrip raw)).2.data [] with
    | none =>
      rw [hs] at h
      simp at h
    | some p =>
      obtain ⟨ipCs, portCs⟩ := p
      rw [hs] at h
      dsimp only at h
      have hm : (stripScheme (pyStrip raw)).1 = m := by
        have := Option.some_inj.mp h
        rw [Prod.mk.injEq] at this
        exact this.1
      rw [← hm]
      exact stripScheme_cases _

/-- C8: _normalize_proxy_row is total and agrees with the spec resolution
table: every line accepted by the grammar (optional scheme, host over the
host character class, colon, 2-5 digit port) yields exactly one candidate
whose type and stored scheme follow the table — http or https gives the
HTTP type with scheme http, socks5 or socks4 the matching SOCKS type, and
a missing scheme the caller default type with a synthesized socks5 or http
scheme — while every other line (blank, comment, or not matching the
grammar) yields none. -/
theorem C8_normalize_matches_spec_table (raw default_type source : String) :
    normalizeProxyRow raw default_type source
      = specNormalize raw default_type source := by
  unfold normalizeProxyRow specNormalize
  cases hp : parseCandidate raw with
  | none => rfl
  | some trip =>
    obtain ⟨m, ip, port⟩ := trip
    dsimp only
    rcases parseCandidate_scheme hp with hm | hm | hm | hm | hm <;> rw [hm] <;> rfl

end ProxyHelper
